import Mathlib

/-!
NetPermission: a doubly linked whitelist kept in contract storage

A shallow embedding of `builtin/netpermission` (`netpermission.go`, `types.go`).

* Go byte arrays are lists of bytes carrying their length.
* The contract storage is a function from (owner, 32-byte key) to the outcome
  of reading that slot; a write replaces the slot's content and is recorded in
  a journal.
* The byte codec (`rlp.EncodeToBytes` / `rlp.DecodeBytes`) is a parameter of
  every operation; `rlpCodec` is a concrete instance used for evaluation.
* A Go `(T, error)` result whose error returns always carry the zero value is
  an `Except Error T`.
* Dereferencing a nil pointer is the outcome `Res.fault`.
-/

namespace netpermission

/-! ## Data model -/

/-- One byte. -/
abbrev Byte := Fin 256

/-- Go `thor.Address`: an array of 20 bytes. -/
structure Address where
  bytes : List Byte
  len : bytes.length = 20
deriving DecidableEq

/-- Go `thor.Bytes32`: an array of 32 bytes, the type of storage keys. -/
structure Bytes32 where
  bytes : List Byte
  len : bytes.length = 32
deriving DecidableEq

/-- Go `error` values. -/
structure Error where
  code : Nat
deriving DecidableEq

/-- The zero value `thor.Address{}`. -/
def Address.zero : Address := ⟨List.replicate 20 0, by simp⟩

/-- Go `Address.IsZero`: every byte is zero. -/
def Address.IsZero (a : Address) : Bool := decide (a = Address.zero)

/-- Go `Permissionentry` (types.go): a list node, its optional neighbours
being nil-able pointers. -/
structure Permissionentry where
  NodeAddr : Address
  Prev : Option Address
  Next : Option Address
deriving DecidableEq

/-- The zero value of `Permissionentry` (`var entry Permissionentry`). -/
def Permissionentry.zero : Permissionentry := ⟨Address.zero, none, none⟩

/-- Go `Permissionentry.IsEmpty`. -/
def Permissionentry.IsEmpty (p : Permissionentry) : Bool :=
  p.NodeAddr.IsZero && p.Prev.isNone && p.Next.isNone

/-- Go `Permissionentry.IsLinked`. -/
def Permissionentry.IsLinked (p : Permissionentry) : Bool :=
  p.Prev.isSome || p.Next.isSome

/-! ## Storage -/

/-- Modelled from the spec: the state package (`state.State`) is not part of
the sources at hand. A slot is addressed by (owner, 32-byte key); reading it
yields its raw bytes (the empty list when the slot is absent) or a storage
error. `journal` records every write issued, newest first. -/
structure State where
  storage : Address → Bytes32 → Except Error (List Byte)
  journal : List (Address × Bytes32 × List Byte)

/-- The store in which every slot is absent and nothing was written. -/
def State.empty : State := ⟨fun _ _ => .ok [], []⟩

/-- Modelled from the spec: `writeSlot(owner, key, bytes|absent)` of the state
package; the slot now reads back the written bytes. -/
def State.setRaw (s : State) (addr : Address) (key : Bytes32) (raw : List Byte) : State :=
  ⟨fun a k => if a = addr ∧ k = key then .ok raw else s.storage a k,
   (addr, key, raw) :: s.journal⟩

/-- Modelled from the spec: `State.DecodeStorage` of the state package:
`readSlot` handed to a decode callback. The callback receives the raw bytes
and returns the decoded value or a decode error; a read error is returned
as is. The store is not touched. -/
def DecodeStorage {α : Type} (addr : Address) (key : Bytes32)
    (dec : List Byte → Except Error α) (s : State) : Except Error α × State :=
  match s.storage addr key with
  | .error err => (.error err, s)
  | .ok raw => (dec raw, s)

/-- Modelled from the spec: `State.EncodeStorage` of the state package:
the encode callback computes the bytes to store (the empty list clears the
slot); when it fails nothing is written and its error is returned. -/
def EncodeStorage (addr : Address) (key : Bytes32)
    (enc : Except Error (List Byte)) (s : State) : Option Error × State :=
  match enc with
  | .error err => (some err, s)
  | .ok raw => (none, s.setRaw addr key raw)

/-- Modelled from the spec: `thor.BytesToBytes32` of the thor package, which
is not part of the sources at hand: the bytes right-aligned in a 32-byte key,
padded on the left with zero bytes (cropped from the left beyond 32). -/
def BytesToBytes32 (b : List Byte) : Bytes32 :=
  ⟨List.replicate (32 - (b.drop (b.length - 32)).length) 0 ++ b.drop (b.length - 32), by
    simp only [List.length_append, List.length_replicate, List.length_drop]; omega⟩

/-- The constant `headKey = thor.Blake2b([]byte("head"))`: the Blake2b-256
digest 48a7f4c3…0b5d6989 of the four ASCII bytes. -/
def headKey : Bytes32 :=
  ⟨[72, 167, 244, 195, 144, 150, 60, 191, 150, 60, 112, 68, 52, 21, 82, 185,
    131, 201, 86, 30, 30, 126, 190, 31, 204, 151, 119, 177, 11, 93, 105, 137], by rfl⟩

/-- The constant `tailKey = thor.Blake2b([]byte("tail"))`: the Blake2b-256
digest 7e7ea92c…37395e0b of the four ASCII bytes. -/
def tailKey : Bytes32 :=
  ⟨[126, 126, 169, 44, 160, 51, 67, 94, 147, 221, 209, 34, 57, 200, 80, 60,
    27, 46, 29, 202, 51, 197, 226, 246, 139, 176, 34, 204, 55, 57, 94, 11], by rfl⟩

/-! ## Byte codec -/

/-- The four uses of the rlp package made by netpermission.go, taken as a
parameter: encoding and decoding an entry, encoding an address, and decoding
bytes into an address pointer. -/
structure Codec where
  encodeEntry : Permissionentry → Except Error (List Byte)
  decodeEntry : List Byte → Except Error Permissionentry
  encodeAddr : Address → Except Error (List Byte)
  decodeAddrPtr : List Byte → Except Error (Option Address)

/-- Go `NetPermission`: the contract address; the state is passed explicitly. -/
structure NetPermission where
  addr : Address

/-- Outcome of a Go call: a normal return, or a runtime panic raised by
dereferencing a nil pointer. -/
inductive Res (α : Type) where
  | ret (a : α)
  | fault
deriving DecidableEq

deriving instance DecidableEq for Except


/-! ## Operations (netpermission.go) -/

/-- Go `getEntry`: reads the slot keyed by the node address; an empty slot
leaves the zero entry, other bytes are decoded. -/
def getEntry (p : NetPermission) (c : Codec) (nodeAddr : Address) (s : State) :
    Except Error Permissionentry × State :=
  DecodeStorage p.addr (BytesToBytes32 nodeAddr.bytes)
    (fun raw => if raw.length = 0 then .ok Permissionentry.zero else c.decodeEntry raw) s

/-- Go `setEntry`: writes the entry under the key of its own `NodeAddr`;
an empty entry clears the slot. -/
def setEntry (p : NetPermission) (c : Codec) (entry : Permissionentry) (s : State) :
    Option Error × State :=
  EncodeStorage p.addr (BytesToBytes32 entry.NodeAddr.bytes)
    (if entry.IsEmpty then .ok [] else c.encodeEntry entry) s

/-- Go `getNodeAddrPtr`: an empty slot leaves the nil pointer. -/
def getNodeAddrPtr (p : NetPermission) (c : Codec) (key : Bytes32) (s : State) :
    Except Error (Option Address) × State :=
  DecodeStorage p.addr key
    (fun raw => if raw.length = 0 then .ok none else c.decodeAddrPtr raw) s

/-- Go `setNodeAddrPtr`: a nil pointer clears the slot. -/
def setNodeAddrPtr (p : NetPermission) (c : Codec) (key : Bytes32) (nodeAddr : Option Address)
    (s : State) : Option Error × State :=
  EncodeStorage p.addr key
    (match nodeAddr with
     | none => .ok []
     | some a => c.encodeAddr a) s

/-- Go `inList`: the entry is linked, or the address is the head. -/
def inList (p : NetPermission) (c : Codec) (nodeAddr : Address) (s : State) :
    Except Error Bool × State :=
  match getEntry p c nodeAddr s with
  | (.error err, s1) => (.error err, s1)
  | (.ok entry, s1) =>
    if entry.IsLinked then (.ok true, s1)
    else
      match getNodeAddrPtr p c headKey s1 with
      | (.error err, s2) => (.error err, s2)
      | (.ok ptr, s2) =>
        match ptr with
        | some a => if a = nodeAddr then (.ok true, s2) else (.ok false, s2)
        | none => (.ok false, s2)

/-- Go `Get`, with its named results `(listed, prev, next, err)`. The final
`return listed, *entry.Prev, *entry.Next, nil` dereferences both pointers. -/
def Get (p : NetPermission) (c : Codec) (nodeAddr : Address) (s : State) :
    Res (Bool × Address × Address × Option Error) × State :=
  match inList p c nodeAddr s with
  | (.error err, s1) => (.ret (false, Address.zero, Address.zero, some err), s1)
  | (.ok listed, s1) =>
    match getEntry p c nodeAddr s1 with
    | (.error err, s2) => (.ret (listed, Address.zero, Address.zero, some err), s2)
    | (.ok entry, s2) =>
      match entry.Prev with
      | none => (.fault, s2)
      | some prev =>
        match entry.Next with
        | none => (.fault, s2)
        | some next => (.ret (listed, prev, next, none), s2)

/-- The tail of Go `Add` from `var newEntry *Permissionentry` on. The pointer
`newEntry` is a parameter so that the assignment `newEntry.Prev = tailPtr`
can be read off: it needs a non-nil pointer. The results of the pointer and
entry writes are dropped, as in the source. -/
def Add.link (p : NetPermission) (c : Codec) (nodeAddr : Address) (tailPtr : Option Address)
    (newEntry : Option Permissionentry) (s : State) : Res (Except Error Bool) × State :=
  match newEntry with
  | none => (.fault, s)
  | some e =>
    let newEntry : Permissionentry := { e with Prev := tailPtr }
    let s1 := (setNodeAddrPtr p c tailKey (some nodeAddr) s).2
    match tailPtr with
    | none =>
      let s2 := (setNodeAddrPtr p c headKey (some nodeAddr) s1).2
      let s3 := (setEntry p c newEntry s2).2
      (.ret (.ok true), s3)
    | some tail =>
      match getEntry p c tail s1 with
      | (.error err, s2) => (.ret (.error err), s2)
      | (.ok tailEntry, s2) =>
        let s3 := (setEntry p c { tailEntry with Next := some nodeAddr } s2).2
        let s4 := (setEntry p c newEntry s3).2
        (.ret (.ok true), s4)

/-- Go `Add`. `newEntry` is declared as a pointer and never allocated, so
`Add.link` is entered with the nil pointer. -/
def Add (p : NetPermission) (c : Codec) (nodeAddr : Address) (s : State) :
    Res (Except Error Bool) × State :=
  match inList p c nodeAddr s with
  | (.error err, s1) => (.ret (.error err), s1)
  | (.ok true, s1) => (.ret (.ok false), s1)
  | (.ok false, s1) =>
    match getNodeAddrPtr p c tailKey s1 with
    | (.error err, s2) => (.ret (.error err), s2)
    | (.ok tailPtr, s2) => Add.link p c nodeAddr tailPtr none s2

/-- First half of the body of Go `Revoke`: detach the entry from its
predecessor, or move the head. -/
def Revoke.unlinkPrev (p : NetPermission) (c : Codec) (entry : Permissionentry) (s : State) :
    Option Error × State :=
  match entry.Prev with
  | none => setNodeAddrPtr p c headKey entry.Next s
  | some prev =>
    match getEntry p c prev s with
    | (.error err, s1) => (some err, s1)
    | (.ok prevEntry, s1) => setEntry p c { prevEntry with Next := entry.Next } s1

/-- Second half of the body of Go `Revoke`: detach the entry from its
successor, or move the tail. -/
def Revoke.unlinkNext (p : NetPermission) (c : Codec) (entry : Permissionentry) (s : State) :
    Option Error × State :=
  match entry.Next with
  | none => setNodeAddrPtr p c tailKey entry.Prev s
  | some next =>
    match getEntry p c next s with
    | (.error err, s1) => (some err, s1)
    | (.ok nextEntry, s1) => setEntry p c { nextEntry with Prev := entry.Prev } s1

/-- Go `Revoke`. Note the test `if listed { return false, nil }`. -/
def Revoke (p : NetPermission) (c : Codec) (nodeAddr : Address) (s : State) :
    Except Error Bool × State :=
  match inList p c nodeAddr s with
  | (.error err, s1) => (.error err, s1)
  | (.ok true, s1) => (.ok false, s1)
  | (.ok false, s1) =>
    match getEntry p c nodeAddr s1 with
    | (.error err, s2) => (.error err, s2)
    | (.ok entry, s2) =>
      match Revoke.unlinkPrev p c entry s2 with
      | (some err, s3) => (.error err, s3)
      | (none, s3) =>
        match Revoke.unlinkNext p c entry s3 with
        | (some err, s4) => (.error err, s4)
        | (none, s4) =>
          match setEntry p c { entry with Prev := none, Next := none } s4 with
          | (some err, s5) => (.error err, s5)
          | (none, s5) => (.ok true, s5)

/-- Go `First`, with its results `(nodeAddr, prev, next, err)`. The head
pointer is dereferenced in `p.getEntry(*nodeAddr)` without a nil test. -/
def First (p : NetPermission) (c : Codec) (s : State) :
    Res (Option Address × Option Address × Option Address × Option Error) × State :=
  match getNodeAddrPtr p c headKey s with
  | (.error err, s1) => (.ret (none, none, none, some err), s1)
  | (.ok nodeAddr, s1) =>
    match nodeAddr with
    | none => (.fault, s1)
    | some a =>
      match getEntry p c a s1 with
      | (.error err, s2) => (.ret (none, none, none, some err), s2)
      | (.ok entry, s2) => (.ret (some entry.NodeAddr, entry.Prev, entry.Next, none), s2)

/-! ## A concrete codec and concrete stores, for evaluation -/

/-- RLP of a 20-byte string: the prefix 0x80+20, then the bytes. -/
def rlpAddr (a : Address) : List Byte := 148 :: a.bytes

/-- RLP of an optional address: nil is the empty string 0x80. -/
def rlpOptAddr : Option Address → List Byte
  | none => [128]
  | some a => rlpAddr a

/-- RLP list header for a payload of `n` bytes (`n` below 256). -/
def rlpListHeader (n : Nat) : List Byte :=
  if n ≤ 55 then [Fin.ofNat (192 + n)] else [248, Fin.ofNat n]

/-- RLP of an entry: the list of its three fields. -/
def rlpEntry (e : Permissionentry) : List Byte :=
  rlpListHeader (rlpAddr e.NodeAddr ++ rlpOptAddr e.Prev ++ rlpOptAddr e.Next).length
    ++ (rlpAddr e.NodeAddr ++ rlpOptAddr e.Prev ++ rlpOptAddr e.Next)

/-- Reads one RLP 20-byte string off the front. -/
def takeAddr : List Byte → Option (Address × List Byte)
  | [] => none
  | b :: rest =>
    if b = 148 then
      if h : (rest.take 20).length = 20 then some (⟨rest.take 20, h⟩, rest.drop 20) else none
    else none

/-- Reads one optional address off the front. -/
def takeOptAddr : List Byte → Option (Option Address × List Byte)
  | [] => none
  | b :: rest =>
    if b = 128 then some (none, rest)
    else
      match takeAddr (b :: rest) with
      | none => none
      | some (a, r) => some (some a, r)

/-- Checks an RLP list header and returns the payload. -/
def stripListHeader : List Byte → Option (List Byte)
  | [] => none
  | b :: rest =>
    if 192 ≤ b.val ∧ b.val ≤ 247 then
      if rest.length = b.val - 192 then some rest else none
    else if b.val = 248 then
      match rest with
      | [] => none
      | n :: payload => if 55 < n.val ∧ payload.length = n.val then some payload else none
    else none

/-- Decodes the RLP of an entry; anything else is a decoding error. -/
def rlpDecodeEntry (raw : List Byte) : Except Error Permissionentry :=
  match stripListHeader raw with
  | none => .error ⟨1⟩
  | some payload =>
    match takeAddr payload with
    | none => .error ⟨1⟩
    | some (a, r1) =>
      match takeOptAddr r1 with
      | none => .error ⟨1⟩
      | some (pv, r2) =>
        match takeOptAddr r2 with
        | none => .error ⟨1⟩
        | some (nx, r3) => if r3 = [] then .ok ⟨a, pv, nx⟩ else .error ⟨1⟩

/-- Decodes the RLP of an address into a fresh pointer. -/
def rlpDecodeAddrPtr (raw : List Byte) : Except Error (Option Address) :=
  match takeAddr raw with
  | some (a, []) => .ok (some a)
  | _ => .error ⟨1⟩

/-- The codec instance used for evaluation. -/
def rlpCodec : Codec :=
  ⟨fun e => .ok (rlpEntry e), rlpDecodeEntry, fun a => .ok (rlpAddr a), rlpDecodeAddrPtr⟩

/-- The address 00…00b. -/
def Address.ofByte (b : Byte) : Address := ⟨List.replicate 19 0 ++ [b], by simp⟩

/-- The contract instance used for evaluation. -/
def contract : NetPermission := ⟨Address.ofByte 78⟩

/-- Three node identities used for evaluation. -/
def addrA : Address := Address.ofByte 1
/-- Second node identity. -/
def addrB : Address := Address.ofByte 2
/-- Third node identity. -/
def addrC : Address := Address.ofByte 3

/-- The slots of a list: head and tail pointers, then one slot per entry. -/
def slotsOf (head tail : Option Address) (es : List Permissionentry) :
    List (Bytes32 × List Byte) :=
  (headKey, match head with | none => [] | some a => rlpAddr a) ::
  (tailKey, match tail with | none => [] | some a => rlpAddr a) ::
  es.map (fun e => (BytesToBytes32 e.NodeAddr.bytes, rlpEntry e))

/-- The store of `owner` holding exactly the given slots, nothing written yet. -/
def State.ofSlots (owner : Address) (slots : List (Bytes32 × List Byte)) : State :=
  ⟨fun a k => if a = owner then .ok ((slots.lookup k).getD []) else .ok [], []⟩

/-- The store of the one-element list A. -/
def storeA : State :=
  State.ofSlots contract.addr (slotsOf (some addrA) (some addrA) [⟨addrA, none, none⟩])

/-- The store of the chain A, B. -/
def storeAB : State :=
  State.ofSlots contract.addr (slotsOf (some addrA) (some addrB)
    [⟨addrA, none, some addrB⟩, ⟨addrB, some addrA, none⟩])

/-- The store of the chain A, B, C. -/
def storeABC : State :=
  State.ofSlots contract.addr (slotsOf (some addrA) (some addrC)
    [⟨addrA, none, some addrB⟩, ⟨addrB, some addrA, some addrC⟩, ⟨addrC, some addrB, none⟩])

/-! ## Membership and well-formedness -/

/-- The identity is listed: the membership test `inList` answers true. -/
def Listed (p : NetPermission) (c : Codec) (s : State) (x : Address) : Prop :=
  (inList p c x s).1 = .ok true

/-- The well-formedness predicate of the data model, following the words of
the specification (section 3): chain symmetry of Next and Prev; the head
pointer is absent iff no identity is listed, otherwise it names the unique
listed entry with Prev absent; the tail pointer is absent iff no identity is
listed, otherwise it names the unique listed entry with Next absent. -/
structure WellFormed (p : NetPermission) (c : Codec) (s : State) : Prop where
  next_prev : ∀ x e n, (getEntry p c x s).1 = .ok e → e.Next = some n →
    ∃ f, (getEntry p c n s).1 = .ok f ∧ f.Prev = some e.NodeAddr
  prev_next : ∀ x e q, (getEntry p c x s).1 = .ok e → e.Prev = some q →
    ∃ f, (getEntry p c q s).1 = .ok f ∧ f.Next = some e.NodeAddr
  head_absent : (getNodeAddrPtr p c headKey s).1 = .ok none ↔ ∀ x, ¬ Listed p c s x
  head_first : ∀ h, (getNodeAddrPtr p c headKey s).1 = .ok (some h) →
    Listed p c s h ∧ (∃ e, (getEntry p c h s).1 = .ok e ∧ e.Prev = none) ∧
    ∀ y e, Listed p c s y → (getEntry p c y s).1 = .ok e → e.Prev = none → y = h
  tail_absent : (getNodeAddrPtr p c tailKey s).1 = .ok none ↔ ∀ x, ¬ Listed p c s x
  tail_last : ∀ t, (getNodeAddrPtr p c tailKey s).1 = .ok (some t) →
    Listed p c s t ∧ (∃ e, (getEntry p c t s).1 = .ok e ∧ e.Next = none) ∧
    ∀ y e, Listed p c s y → (getEntry p c y s).1 = .ok e → e.Next = none → y = t

/-! ## The callbacks of the entry and pointer accessors -/

/-- The decode callback handed to `DecodeStorage` by Go `getEntry`. -/
def decodeEntrySlot (c : Codec) (raw : List Byte) : Except Error Permissionentry :=
  if raw.length = 0 then .ok Permissionentry.zero else c.decodeEntry raw

/-- The encode callback handed to `EncodeStorage` by Go `setEntry`. -/
def encodeEntrySlot (c : Codec) (entry : Permissionentry) : Except Error (List Byte) :=
  if entry.IsEmpty then .ok [] else c.encodeEntry entry

/-- The decode callback handed to `DecodeStorage` by Go `getNodeAddrPtr`. -/
def decodeAddrSlot (c : Codec) (raw : List Byte) : Except Error (Option Address) :=
  if raw.length = 0 then .ok none else c.decodeAddrPtr raw

/-- The encode callback handed to `EncodeStorage` by Go `setNodeAddrPtr`. -/
def encodeAddrSlot (c : Codec) (nodeAddr : Option Address) : Except Error (List Byte) :=
  match nodeAddr with
  | none => .ok []
  | some a => c.encodeAddr a

/-! ## Further concrete stores -/

/-- A store whose slot for A holds bytes that are not the RLP of an entry. -/
def storeBadA : State :=
  State.ofSlots contract.addr [(BytesToBytes32 addrA.bytes, [1, 2, 3])]

/-- The store of the chain A, Z, where Z is the zero address. -/
def storeAZ : State :=
  State.ofSlots contract.addr (slotsOf (some addrA) (some Address.zero)
    [⟨addrA, none, some Address.zero⟩, ⟨Address.zero, some addrA, none⟩])

/-- The store of the one-element list A in which B is a tombstone: its slot
holds the entry of B without links. -/
def storeAtombB : State :=
  State.ofSlots contract.addr (slotsOf (some addrA) (some addrA)
    [⟨addrA, none, none⟩, ⟨addrB, none, none⟩])

/-! ## Reads leave the store alone -/

theorem DecodeStorage_snd {α : Type} (a : Address) (k : Bytes32)
    (dec : List Byte → Except Error α) (s : State) : (DecodeStorage a k dec s).2 = s := by
  unfold DecodeStorage
  split <;> rfl

theorem getEntry_snd (p : NetPermission) (c : Codec) (x : Address) (s : State) :
    (getEntry p c x s).2 = s :=
  DecodeStorage_snd _ _ _ _

theorem getNodeAddrPtr_snd (p : NetPermission) (c : Codec) (k : Bytes32) (s : State) :
    (getNodeAddrPtr p c k s).2 = s :=
  DecodeStorage_snd _ _ _ _

theorem getEntry_eq (p : NetPermission) (c : Codec) (x : Address) (s : State) :
    getEntry p c x s = ((getEntry p c x s).1, s) :=
  Prod.ext rfl (getEntry_snd p c x s)

theorem getNodeAddrPtr_eq (p : NetPermission) (c : Codec) (k : Bytes32) (s : State) :
    getNodeAddrPtr p c k s = ((getNodeAddrPtr p c k s).1, s) :=
  Prod.ext rfl (getNodeAddrPtr_snd p c k s)

theorem inList_snd (p : NetPermission) (c : Codec) (x : Address) (s : State) :
    (inList p c x s).2 = s := by
  unfold inList
  rw [getEntry_eq]
  cases (getEntry p c x s).1 with
  | error e => rfl
  | ok entry =>
    simp only
    split
    · rfl
    · rw [getNodeAddrPtr_eq]
      cases (getNodeAddrPtr p c headKey s).1 with
      | error e => rfl
      | ok ptr =>
        cases ptr with
        | none => rfl
        | some a => simp only; split <;> rfl

theorem inList_eq (p : NetPermission) (c : Codec) (x : Address) (s : State) :
    inList p c x s = ((inList p c x s).1, s) :=
  Prod.ext rfl (inList_snd p c x s)

theorem Get_snd (p : NetPermission) (c : Codec) (x : Address) (s : State) :
    (Get p c x s).2 = s := by
  unfold Get
  rw [inList_eq]
  cases (inList p c x s).1 with
  | error e => rfl
  | ok listed =>
    simp only
    rw [getEntry_eq]
    cases (getEntry p c x s).1 with
    | error e => rfl
    | ok entry =>
      simp only
      cases entry.Prev with
      | none => rfl
      | some prev =>
        cases entry.Next with
        | none => rfl
        | some next => rfl

/-! ## Add -/

/-- C1, evaluated at a failing input: on the one-element list A the identity B
is not listed and the tail pointer reads A, yet Add(B) does not return true:
it ends in the nil-pointer fault of `newEntry.Prev = tailPtr`, and the store is
as before, so B is not listed and the tail is still A. -/
theorem Add_unlisted_on_singleton_faults :
    (inList contract rlpCodec addrB storeA).1 = .ok false ∧
    (getNodeAddrPtr contract rlpCodec tailKey storeA).1 = .ok (some addrA) ∧
    Add contract rlpCodec addrB storeA = (.fault, storeA) :=
  ⟨by decide, by decide, rfl⟩

/-- C7: when the membership test answers true for X, Add(X) returns false
without error and the store (every slot, and the journal of writes) is the
one it started from; the same holds for an Add(X) repeated right after. -/
theorem Add_listed_is_noop (p : NetPermission) (c : Codec) (x : Address) (s : State)
    (h : (inList p c x s).1 = .ok true) :
    Add p c x s = (.ret (.ok false), s) ∧
    Add p c x (Add p c x s).2 = (.ret (.ok false), s) := by
  have h1 : Add p c x s = (.ret (.ok false), s) := by
    unfold Add
    rw [inList_eq, h]
  rw [h1]
  exact ⟨rfl, h1⟩

theorem Add_listed_is_noop_witness :
    (inList contract rlpCodec addrA storeA).1 = .ok true ∧
    Add contract rlpCodec addrA storeA = (.ret (.ok false), storeA) ∧
    Add contract rlpCodec addrA (Add contract rlpCodec addrA storeA).2
      = (.ret (.ok false), storeA) :=
  ⟨by decide, Add_listed_is_noop contract rlpCodec addrA storeA (by decide)⟩

/-- C9, evaluated at its first step: from the empty store Add(A) does not
return true for any identity A, any contract and any codec: it faults and
leaves the store empty, so the chain A, B, C is never built. -/
theorem Add_first_of_three_faults (p : NetPermission) (c : Codec) (a : Address) :
    Add p c a State.empty = (.fault, State.empty) := by
  have h1 : inList p c a State.empty = (.ok false, State.empty) := rfl
  have h2 : getNodeAddrPtr p c tailKey State.empty = (.ok none, State.empty) := rfl
  unfold Add
  rw [h1]
  simp only
  rw [h2]
  rfl

/-! ## Revoke -/

/-- C2, evaluated at a failing input: on the one-element list A the identity B
is not listed, yet Revoke(B) returns true and the head and tail pointers,
which read A before, read absent afterwards. -/
theorem Revoke_unlisted_clears_pointers :
    (inList contract rlpCodec addrB storeA).1 = .ok false ∧
    (Revoke contract rlpCodec addrB storeA).1 = .ok true ∧
    (getNodeAddrPtr contract rlpCodec headKey storeA).1 = .ok (some addrA) ∧
    (getNodeAddrPtr contract rlpCodec tailKey storeA).1 = .ok (some addrA) ∧
    (getNodeAddrPtr contract rlpCodec headKey
      (Revoke contract rlpCodec addrB storeA).2).1 = .ok none ∧
    (getNodeAddrPtr contract rlpCodec tailKey
      (Revoke contract rlpCodec addrB storeA).2).1 = .ok none := by
  decide

/-- C3, evaluated at a failing input: on the chain A, B the identity B is
listed, yet Revoke(B) returns false, the store is as before, B is still
listed and its entry still has Prev = A. -/
theorem Revoke_listed_stays_listed :
    (inList contract rlpCodec addrB storeAB).1 = .ok true ∧
    Revoke contract rlpCodec addrB storeAB = (.ok false, storeAB) ∧
    (inList contract rlpCodec addrB (Revoke contract rlpCodec addrB storeAB).2).1 = .ok true ∧
    (getEntry contract rlpCodec addrB (Revoke contract rlpCodec addrB storeAB).2).1
      = .ok ⟨addrB, some addrA, none⟩ :=
  ⟨by decide, rfl, by decide, by decide⟩

/-- C4, evaluated at failing inputs: on the chain A, B, C the entry of B has
Prev = A and Next = C, and after Revoke(B), which returns false, A still has
Next = B and C still has Prev = B; on the chain A, B, Revoke(A) returns false
and the head pointer still reads A. -/
theorem Revoke_listed_relinks_nothing :
    (getEntry contract rlpCodec addrB storeABC).1 = .ok ⟨addrB, some addrA, some addrC⟩ ∧
    (inList contract rlpCodec addrB storeABC).1 = .ok true ∧
    Revoke contract rlpCodec addrB storeABC = (.ok false, storeABC) ∧
    (getEntry contract rlpCodec addrA (Revoke contract rlpCodec addrB storeABC).2).1
      = .ok ⟨addrA, none, some addrB⟩ ∧
    (getEntry contract rlpCodec addrC (Revoke contract rlpCodec addrB storeABC).2).1
      = .ok ⟨addrC, some addrB, none⟩ ∧
    (inList contract rlpCodec addrA storeAB).1 = .ok true ∧
    Revoke contract rlpCodec addrA storeAB = (.ok false, storeAB) ∧
    (getNodeAddrPtr contract rlpCodec headKey
      (Revoke contract rlpCodec addrA storeAB).2).1 = .ok (some addrA) :=
  ⟨by decide, by decide, rfl, by decide, by decide, by decide, rfl, by decide⟩

/-! ## Get and First -/

/-- C5, evaluated at a failing input: on the one-element list A (head and tail
read A, the entry of A has no links, the membership test answers true) Get(A)
does not complete: it faults on dereferencing the nil `Prev`. -/
theorem Get_singleton_faults :
    (getNodeAddrPtr contract rlpCodec headKey storeA).1 = .ok (some addrA) ∧
    (getNodeAddrPtr contract rlpCodec tailKey storeA).1 = .ok (some addrA) ∧
    (getEntry contract rlpCodec addrA storeA).1 = .ok ⟨addrA, none, none⟩ ∧
    (inList contract rlpCodec addrA storeA).1 = .ok true ∧
    Get contract rlpCodec addrA storeA = (.fault, storeA) :=
  ⟨by decide, by decide, by decide, by decide, rfl⟩

/-- C6, the behaviour of the code: whenever the head pointer reads absent,
First ends in a nil-pointer fault (it dereferences the head pointer without a
test) instead of a checkable result; the store is untouched. -/
theorem First_absent_head_faults (p : NetPermission) (c : Codec) (s : State)
    (h : (getNodeAddrPtr p c headKey s).1 = .ok none) :
    First p c s = (.fault, s) := by
  unfold First
  rw [getNodeAddrPtr_eq, h]

theorem First_absent_head_faults_witness :
    (getNodeAddrPtr contract rlpCodec headKey State.empty).1 = .ok none ∧
    First contract rlpCodec State.empty = (.fault, State.empty) :=
  ⟨by decide, First_absent_head_faults contract rlpCodec State.empty (by decide)⟩

/-- C10: Get leaves the store as it found it (every slot, and no write is
journalled), so the n-th of any number of consecutive calls of Get(X) gives
the outcome of the first: the same result, the same error or the same fault. -/
theorem Get_readonly_deterministic (p : NetPermission) (c : Codec) (x : Address) (s : State)
    (n : Nat) :
    (Get p c x s).2 = s ∧
    Get p c x ((fun t => (Get p c x t).2)^[n] s) = Get p c x s := by
  have hfix : ∀ m : Nat, (fun t => (Get p c x t).2)^[m] s = s := by
    intro m
    induction m with
    | zero => rfl
    | succ k ih => rw [Function.iterate_succ_apply', ih]; exact Get_snd p c x s
  exact ⟨Get_snd p c x s, by rw [hfix n]⟩

/-! ## Storage keys -/

theorem entryKey_bytes (x : Address) :
    (BytesToBytes32 x.bytes).bytes = List.replicate 12 0 ++ x.bytes := by
  simp [BytesToBytes32, x.len]

theorem entryKey_injective (x y : Address)
    (h : BytesToBytes32 x.bytes = BytesToBytes32 y.bytes) : x = y := by
  have hb := congrArg Bytes32.bytes h
  rw [entryKey_bytes, entryKey_bytes] at hb
  have hxy : x.bytes = y.bytes := List.append_cancel_left hb
  cases x
  cases y
  simpa using hxy

theorem entryKey_ne_headKey (x : Address) : BytesToBytes32 x.bytes ≠ headKey := by
  intro h
  have hb := congrArg Bytes32.bytes h
  rw [entryKey_bytes] at hb
  simp [headKey, List.replicate] at hb

theorem entryKey_ne_tailKey (x : Address) : BytesToBytes32 x.bytes ≠ tailKey := by
  intro h
  have hb := congrArg Bytes32.bytes h
  rw [entryKey_bytes] at hb
  simp [tailKey, List.replicate] at hb

/-! ## The store of the chain A, B and the invariant -/

theorem storeAB_entry_other (x : Address) (ha : x ≠ addrA) (hb : x ≠ addrB) :
    (getEntry contract rlpCodec x storeAB).1 = .ok Permissionentry.zero := by
  have h1 : (BytesToBytes32 x.bytes == BytesToBytes32 addrA.bytes) = false :=
    beq_eq_false_iff_ne.mpr (fun h => ha (entryKey_injective _ _ h))
  have h2 : (BytesToBytes32 x.bytes == BytesToBytes32 addrB.bytes) = false :=
    beq_eq_false_iff_ne.mpr (fun h => hb (entryKey_injective _ _ h))
  have h3 : (BytesToBytes32 x.bytes == headKey) = false :=
    beq_eq_false_iff_ne.mpr (entryKey_ne_headKey x)
  have h4 : (BytesToBytes32 x.bytes == tailKey) = false :=
    beq_eq_false_iff_ne.mpr (entryKey_ne_tailKey x)
  simp [getEntry, DecodeStorage, storeAB, State.ofSlots, slotsOf, List.lookup, h1, h2, h3, h4]

theorem storeAB_head :
    getNodeAddrPtr contract rlpCodec headKey storeAB = (.ok (some addrA), storeAB) :=
  rfl

theorem storeAB_listed_other (x : Address) (ha : x ≠ addrA) (hb : x ≠ addrB) :
    (inList contract rlpCodec x storeAB).1 = .ok false := by
  unfold inList
  rw [getEntry_eq, storeAB_entry_other x ha hb]
  simp only [storeAB_head]
  have : Permissionentry.zero.IsLinked = false := rfl
  simp [this, Ne.symm ha]

theorem storeAB_entryA :
    (getEntry contract rlpCodec addrA storeAB).1 = .ok ⟨addrA, none, some addrB⟩ := by
  decide

theorem storeAB_entryB :
    (getEntry contract rlpCodec addrB storeAB).1 = .ok ⟨addrB, some addrA, none⟩ := by
  decide

theorem storeAB_entry_cases (x : Address) (e : Permissionentry)
    (hx : (getEntry contract rlpCodec x storeAB).1 = .ok e) :
    (x = addrA ∧ e = ⟨addrA, none, some addrB⟩) ∨ (x = addrB ∧ e = ⟨addrB, some addrA, none⟩) ∨
    (x ≠ addrA ∧ x ≠ addrB ∧ e = Permissionentry.zero) := by
  by_cases ha : x = addrA
  · subst ha
    rw [storeAB_entryA] at hx
    exact Or.inl ⟨rfl, (Except.ok.inj hx).symm⟩
  · by_cases hb : x = addrB
    · subst hb
      rw [storeAB_entryB] at hx
      exact Or.inr (Or.inl ⟨rfl, (Except.ok.inj hx).symm⟩)
    · rw [storeAB_entry_other x ha hb] at hx
      exact Or.inr (Or.inr ⟨ha, hb, (Except.ok.inj hx).symm⟩)

theorem storeAB_listed (x : Address) (h : Listed contract rlpCodec storeAB x) :
    x = addrA ∨ x = addrB := by
  by_contra hne
  push_neg at hne
  have := storeAB_listed_other x hne.1 hne.2
  unfold Listed at h
  rw [this] at h
  cases h

theorem storeAB_wellFormed : WellFormed contract rlpCodec storeAB where
  next_prev := by
    intro x e n hx hn
    rcases storeAB_entry_cases x e hx with ⟨-, he⟩ | ⟨-, he⟩ | ⟨-, -, he⟩ <;> subst he
    · cases hn
      exact ⟨_, storeAB_entryB, rfl⟩
    · cases hn
    · cases hn
  prev_next := by
    intro x e q hx hq
    rcases storeAB_entry_cases x e hx with ⟨-, he⟩ | ⟨-, he⟩ | ⟨-, -, he⟩ <;> subst he
    · cases hq
    · cases hq
      exact ⟨_, storeAB_entryA, rfl⟩
    · cases hq
  head_absent := by
    constructor
    · intro h
      exact absurd h (by decide)
    · intro h
      exact absurd (show Listed contract rlpCodec storeAB addrA by unfold Listed; decide) (h addrA)
  head_first := by
    intro h hh
    have hA : (getNodeAddrPtr contract rlpCodec headKey storeAB).1 = .ok (some addrA) := by decide
    rw [hA] at hh
    cases hh
    refine ⟨by unfold Listed; decide, ⟨_, storeAB_entryA, rfl⟩, ?_⟩
    intro y e hl hy hp
    rcases storeAB_entry_cases y e hy with ⟨hya, -⟩ | ⟨-, he⟩ | ⟨hya, hyb, -⟩
    · exact hya
    · subst he
      cases hp
    · rcases storeAB_listed y hl with h1 | h1
      · exact h1
      · exact absurd h1 hyb
  tail_absent := by
    constructor
    · intro h
      exact absurd h (by decide)
    · intro h
      exact absurd (show Listed contract rlpCodec storeAB addrA by unfold Listed; decide) (h addrA)
  tail_last := by
    intro t ht
    have hB : (getNodeAddrPtr contract rlpCodec tailKey storeAB).1 = .ok (some addrB) := by decide
    rw [hB] at ht
    cases ht
    refine ⟨by unfold Listed; decide, ⟨_, storeAB_entryB, rfl⟩, ?_⟩
    intro y e hl hy hp
    rcases storeAB_entry_cases y e hy with ⟨-, he⟩ | ⟨hyb, -⟩ | ⟨hya, hyb, -⟩
    · subst he
      cases hp
    · exact hyb
    · rcases storeAB_listed y hl with h1 | h1
      · exact absurd h1 hya
      · exact h1

/-- C8, evaluated at a failing input: the store of the chain A, B satisfies
the well-formedness predicate and C is not listed in it, yet after Revoke(C),
which returns true, the predicate fails: the head pointer reads absent while
A is still listed. -/
theorem Revoke_unlisted_breaks_wellFormed :
    WellFormed contract rlpCodec storeAB ∧
    (inList contract rlpCodec addrC storeAB).1 = .ok false ∧
    (Revoke contract rlpCodec addrC storeAB).1 = .ok true ∧
    ¬ WellFormed contract rlpCodec (Revoke contract rlpCodec addrC storeAB).2 := by
  refine ⟨storeAB_wellFormed, by decide, by decide, ?_⟩
  intro h
  exact (h.head_absent.mp (by decide)) addrA (by unfold Listed; decide)

/-! ## Reading and writing a slot -/

theorem getEntry_def (p : NetPermission) (c : Codec) (x : Address) (s : State) :
    getEntry p c x s = DecodeStorage p.addr (BytesToBytes32 x.bytes) (decodeEntrySlot c) s := rfl

theorem setEntry_def (p : NetPermission) (c : Codec) (e : Permissionentry) (s : State) :
    setEntry p c e s
      = EncodeStorage p.addr (BytesToBytes32 e.NodeAddr.bytes) (encodeEntrySlot c e) s := rfl

theorem getNodeAddrPtr_def (p : NetPermission) (c : Codec) (k : Bytes32) (s : State) :
    getNodeAddrPtr p c k s = DecodeStorage p.addr k (decodeAddrSlot c) s := rfl

theorem setNodeAddrPtr_def (p : NetPermission) (c : Codec) (k : Bytes32) (v : Option Address)
    (s : State) :
    setNodeAddrPtr p c k v s = EncodeStorage p.addr k (encodeAddrSlot c v) s := by
  cases v <;> rfl

theorem storage_setRaw_same (s : State) (a : Address) (k : Bytes32) (raw : List Byte) :
    (s.setRaw a k raw).storage a k = .ok raw := by
  simp [State.setRaw]

theorem storage_setRaw_other (s : State) (a : Address) (k k2 : Bytes32) (raw : List Byte)
    (h : k2 ≠ k) : (s.setRaw a k raw).storage a k2 = s.storage a k2 := by
  simp [State.setRaw, h]

theorem DecodeStorage_of_ok {α : Type} (a : Address) (k : Bytes32)
    (dec : List Byte → Except Error α) (s : State) (raw : List Byte)
    (h : s.storage a k = .ok raw) : DecodeStorage a k dec s = (dec raw, s) := by
  unfold DecodeStorage
  rw [h]

theorem DecodeStorage_of_error {α : Type} (a : Address) (k : Bytes32)
    (dec : List Byte → Except Error α) (s : State) (err : Error)
    (h : s.storage a k = .error err) : DecodeStorage a k dec s = (.error err, s) := by
  unfold DecodeStorage
  rw [h]

theorem IsEmpty_iff_zero (e : Permissionentry) : e.IsEmpty = true ↔ e = Permissionentry.zero := by
  rcases e with ⟨a, pv, nx⟩
  cases pv <;> cases nx <;>
    simp [Permissionentry.IsEmpty, Permissionentry.zero, Address.IsZero]

/-! ## Round trips through a slot -/

/-- C11: entry persistence round trip. Assume that, when the entry e is not
empty, the encode callback of setEntry yields bytes which the decode callback
of getEntry turns back into e. Then for every store: setEntry(e) succeeds and
getEntry(e.NodeAddr) on the store it leaves returns e; when e is empty
setEntry writes the empty list (absent) into the slot instead of bytes; and
getEntry on any slot that reads absent (zero length) returns the zero entry
without error. -/
theorem setEntry_getEntry_roundtrip (p : NetPermission) (c : Codec) (s : State)
    (e : Permissionentry)
    (hrt : e.IsEmpty = false →
      ∃ raw, encodeEntrySlot c e = .ok raw ∧ decodeEntrySlot c raw = .ok e) :
    (setEntry p c e s).1 = none ∧
    (getEntry p c e.NodeAddr (setEntry p c e s).2).1 = .ok e ∧
    (e.IsEmpty = true →
      (setEntry p c e s).2 = s.setRaw p.addr (BytesToBytes32 e.NodeAddr.bytes) []) ∧
    (∀ (t : State) (x : Address), t.storage p.addr (BytesToBytes32 x.bytes) = .ok [] →
      getEntry p c x t = (.ok Permissionentry.zero, t)) := by
  have hread : ∀ (t : State) (x : Address), t.storage p.addr (BytesToBytes32 x.bytes) = .ok [] →
      getEntry p c x t = (.ok Permissionentry.zero, t) := by
    intro t x ht
    rw [getEntry_def, DecodeStorage_of_ok _ _ _ _ _ ht]
    rfl
  cases he : e.IsEmpty with
  | true =>
    have hz : e = Permissionentry.zero := (IsEmpty_iff_zero e).mp he
    have hset : setEntry p c e s
        = (none, s.setRaw p.addr (BytesToBytes32 e.NodeAddr.bytes) []) := by
      rw [setEntry_def]
      unfold encodeEntrySlot
      rw [he]
      rfl
    rw [hset]
    refine ⟨rfl, ?_, fun _ => rfl, hread⟩
    rw [hread _ _ (storage_setRaw_same _ _ _ _)]
    exact congrArg Except.ok hz.symm
  | false =>
    obtain ⟨raw, henc, hdec⟩ := hrt he
    have hset : setEntry p c e s
        = (none, s.setRaw p.addr (BytesToBytes32 e.NodeAddr.bytes) raw) := by
      rw [setEntry_def, henc]
      rfl
    rw [hset]
    refine ⟨rfl, ?_, fun h => absurd h (by simp), hread⟩
    rw [getEntry_def, DecodeStorage_of_ok _ _ _ _ _ (storage_setRaw_same _ _ _ _)]
    exact hdec

theorem setEntry_getEntry_roundtrip_witness :
    (∃ raw, encodeEntrySlot rlpCodec ⟨addrB, some addrA, none⟩ = .ok raw ∧
      decodeEntrySlot rlpCodec raw = .ok ⟨addrB, some addrA, none⟩) ∧
    (getEntry contract rlpCodec addrB
      (setEntry contract rlpCodec ⟨addrB, some addrA, none⟩ storeA).2).1
      = .ok ⟨addrB, some addrA, none⟩ :=
  ⟨⟨_, rfl, by decide⟩,
   (setEntry_getEntry_roundtrip contract rlpCodec storeA ⟨addrB, some addrA, none⟩
      (fun _ => ⟨_, rfl, by decide⟩)).2.1⟩

/-- C12: sentinel pointer round trip. Assume that, when v is an identity, the
encode callback of setNodeAddrPtr yields bytes which the decode callback of
getNodeAddrPtr turns back into that identity. Then for every store and every
key k, in particular head and tail: setNodeAddrPtr(k, v) succeeds and
getNodeAddrPtr(k) on the store it leaves returns v; writing absent writes the
empty list (clears the slot); and reading a slot that is absent (never
written, or cleared) returns absent without error. -/
theorem setNodeAddrPtr_getNodeAddrPtr_roundtrip (p : NetPermission) (c : Codec) (s : State)
    (k : Bytes32) (v : Option Address)
    (hrt : ∀ a, v = some a →
      ∃ raw, encodeAddrSlot c (some a) = .ok raw ∧ decodeAddrSlot c raw = .ok (some a)) :
    (setNodeAddrPtr p c k v s).1 = none ∧
    (getNodeAddrPtr p c k (setNodeAddrPtr p c k v s).2).1 = .ok v ∧
    (v = none → (setNodeAddrPtr p c k v s).2 = s.setRaw p.addr k []) ∧
    (∀ t : State, t.storage p.addr k = .ok [] → getNodeAddrPtr p c k t = (.ok none, t)) := by
  have hread : ∀ t : State, t.storage p.addr k = .ok [] →
      getNodeAddrPtr p c k t = (.ok none, t) := by
    intro t ht
    rw [getNodeAddrPtr_def, DecodeStorage_of_ok _ _ _ _ _ ht]
    rfl
  cases v with
  | none =>
    have hset : setNodeAddrPtr p c k none s = (none, s.setRaw p.addr k []) := rfl
    rw [hset]
    refine ⟨rfl, ?_, fun _ => rfl, hread⟩
    rw [hread _ (storage_setRaw_same _ _ _ _)]
  | some a =>
    obtain ⟨raw, henc, hdec⟩ := hrt a rfl
    have hset : setNodeAddrPtr p c k (some a) s = (none, s.setRaw p.addr k raw) := by
      rw [setNodeAddrPtr_def, henc]
      rfl
    rw [hset]
    refine ⟨rfl, ?_, fun h => absurd h (by simp), hread⟩
    rw [getNodeAddrPtr_def, DecodeStorage_of_ok _ _ _ _ _ (storage_setRaw_same _ _ _ _)]
    exact hdec

theorem setNodeAddrPtr_getNodeAddrPtr_roundtrip_witness :
    (∃ raw, encodeAddrSlot rlpCodec (some addrC) = .ok raw ∧
      decodeAddrSlot rlpCodec raw = .ok (some addrC)) ∧
    (getNodeAddrPtr contract rlpCodec tailKey
      (setNodeAddrPtr contract rlpCodec tailKey (some addrC) storeAB).2).1 = .ok (some addrC) :=
  ⟨⟨_, rfl, by decide⟩,
   (setNodeAddrPtr_getNodeAddrPtr_roundtrip contract rlpCodec storeAB tailKey (some addrC)
      (fun a h => by cases h; exact ⟨_, rfl, by decide⟩)).2.1⟩

theorem inList_of_getEntry_error (p : NetPermission) (c : Codec) (x : Address) (s : State)
    (err : Error) (h : (getEntry p c x s).1 = .error err) :
    inList p c x s = (.error err, s) := by
  unfold inList
  rw [getEntry_eq, h]

/-! ## Failures and faults -/

/-- C13: when reading or decoding the entry slot of X fails with error err (a
storage error or undecodable bytes), Get(X) returns err with listed = false,
Add(X) and Revoke(X) return err with result false, and each leaves the store
and its journal of writes as they were: no write is issued. -/
theorem read_failure_propagates (p : NetPermission) (c : Codec) (x : Address) (s : State)
    (err : Error) (h : (getEntry p c x s).1 = .error err) :
    Get p c x s = (.ret (false, Address.zero, Address.zero, some err), s) ∧
    Add p c x s = (.ret (.error err), s) ∧
    Revoke p c x s = (.error err, s) := by
  have hl := inList_of_getEntry_error p c x s err h
  refine ⟨?_, ?_, ?_⟩
  · unfold Get
    rw [hl]
  · unfold Add
    rw [hl]
  · unfold Revoke
    rw [hl]

theorem read_failure_propagates_witness :
    (getEntry contract rlpCodec addrA storeBadA).1 = .error ⟨1⟩ ∧
    Get contract rlpCodec addrA storeBadA
      = (.ret (false, Address.zero, Address.zero, some ⟨1⟩), storeBadA) ∧
    Add contract rlpCodec addrA storeBadA = (.ret (.error ⟨1⟩), storeBadA) ∧
    Revoke contract rlpCodec addrA storeBadA = (.error ⟨1⟩, storeBadA) :=
  ⟨by decide, read_failure_propagates contract rlpCodec addrA storeBadA ⟨1⟩ (by decide)⟩

/-- C14: for every store and every X for which the membership test answers
false and the tail pointer is read without error, Add(X) ends in the
nil-pointer fault of `newEntry.Prev = tailPtr`: it does not return, and the
store and its journal are as before, so no write was issued. -/
theorem Add_unlisted_faults (p : NetPermission) (c : Codec) (x : Address) (s : State)
    (t : Option Address) (hl : (inList p c x s).1 = .ok false)
    (ht : (getNodeAddrPtr p c tailKey s).1 = .ok t) :
    Add p c x s = (.fault, s) := by
  unfold Add
  rw [inList_eq, hl]
  simp only
  rw [getNodeAddrPtr_eq, ht]
  rfl

theorem Add_unlisted_faults_witness :
    (inList contract rlpCodec addrC storeAB).1 = .ok false ∧
    (getNodeAddrPtr contract rlpCodec tailKey storeAB).1 = .ok (some addrB) ∧
    Add contract rlpCodec addrC storeAB = (.fault, storeAB) :=
  ⟨by decide, by decide,
   Add_unlisted_faults contract rlpCodec addrC storeAB (some addrB) (by decide) (by decide)⟩

theorem inList_of_linked_or_head (p : NetPermission) (c : Codec) (x : Address) (s : State)
    (e : Permissionentry) (he : (getEntry p c x s).1 = .ok e)
    (hl : e.IsLinked = true ∨ (getNodeAddrPtr p c headKey s).1 = .ok (some x)) :
    inList p c x s = (.ok true, s) := by
  unfold inList
  rw [getEntry_eq, he]
  simp only
  cases hk : e.IsLinked with
  | true => rfl
  | false =>
    rcases hl with hl | hl
    · rw [hk] at hl
      cases hl
    · rw [getNodeAddrPtr_eq, hl]
      simp

/-- C15: for every store and every X whose entry is linked or which is the
head, Revoke(X) returns false without error, the store and its journal are
unchanged, and X is still listed afterwards. -/
theorem Revoke_listed_short_circuits (p : NetPermission) (c : Codec) (x : Address) (s : State)
    (e : Permissionentry) (he : (getEntry p c x s).1 = .ok e)
    (hl : e.IsLinked = true ∨ (getNodeAddrPtr p c headKey s).1 = .ok (some x)) :
    Revoke p c x s = (.ok false, s) ∧
    (inList p c x (Revoke p c x s).2).1 = .ok true := by
  have hin := inList_of_linked_or_head p c x s e he hl
  have hrev : Revoke p c x s = (.ok false, s) := by
    unfold Revoke
    rw [hin]
  rw [hrev]
  exact ⟨rfl, by rw [hin]⟩

theorem Revoke_listed_short_circuits_witness :
    (getEntry contract rlpCodec addrA storeA).1 = .ok ⟨addrA, none, none⟩ ∧
    (getNodeAddrPtr contract rlpCodec headKey storeA).1 = .ok (some addrA) ∧
    Revoke contract rlpCodec addrA storeA = (.ok false, storeA) ∧
    (inList contract rlpCodec addrA (Revoke contract rlpCodec addrA storeA).2).1 = .ok true :=
  ⟨by decide, by decide,
   Revoke_listed_short_circuits contract rlpCodec addrA storeA ⟨addrA, none, none⟩
     (by decide) (Or.inr (by decide))⟩

theorem Get_of_reads (p : NetPermission) (c : Codec) (x : Address) (s : State) (l : Bool)
    (e : Permissionentry) (hl : (inList p c x s).1 = .ok l) (he : (getEntry p c x s).1 = .ok e) :
    Get p c x s =
      match e.Prev with
      | none => (.fault, s)
      | some prev =>
        match e.Next with
        | none => (.fault, s)
        | some next => (.ret (l, prev, next, none), s) := by
  unfold Get
  rw [inList_eq, hl]
  simp only
  rw [getEntry_eq, he]

/-- C17: Get(X) returns without error only if the stored entry of X has both
Prev and Next present, and the listed flag it then returns is true; whenever
the reads succeed and Prev or Next is absent, Get(X) ends in a nil-pointer
fault, the store unchanged. -/
theorem Get_completes_only_with_both_links (p : NetPermission) (c : Codec) (x : Address)
    (s : State) :
    (∀ (l : Bool) (pv nx : Address) (s1 : State),
      Get p c x s = (.ret (l, pv, nx, none), s1) →
      l = true ∧ ∃ e, (getEntry p c x s).1 = .ok e ∧ e.Prev = some pv ∧ e.Next = some nx) ∧
    (∀ (l : Bool) (e : Permissionentry),
      (inList p c x s).1 = .ok l → (getEntry p c x s).1 = .ok e →
      (e.Prev = none ∨ e.Next = none) → Get p c x s = (.fault, s)) := by
  constructor
  · intro l pv nx s1 h
    rcases hl : (inList p c x s).1 with err | l0
    · have hg : Get p c x s = (.ret (false, Address.zero, Address.zero, some err), s) := by
        unfold Get
        rw [inList_eq, hl]
      rw [hg] at h
      simp at h
    · rcases he : (getEntry p c x s).1 with err | e
      · have hg : Get p c x s = (.ret (l0, Address.zero, Address.zero, some err), s) := by
          unfold Get
          rw [inList_eq, hl]
          simp only
          rw [getEntry_eq, he]
        rw [hg] at h
        simp at h
      · rw [Get_of_reads p c x s l0 e hl he] at h
        rcases e with ⟨a, pv0, nx0⟩
        cases pv0 with
        | none => simp at h
        | some q =>
          cases nx0 with
          | none => simp at h
          | some r =>
            simp at h
            obtain ⟨⟨h1, h2, h3⟩, -⟩ := h
            have hin := inList_of_linked_or_head p c x s ⟨a, some q, some r⟩ he (Or.inl rfl)
            rw [hin] at hl
            have hl0 : l0 = true := (Except.ok.inj hl).symm
            exact ⟨h1 ▸ hl0, ⟨a, some q, some r⟩, rfl, congrArg some h2, congrArg some h3⟩
  · intro l e hl he h
    rw [Get_of_reads p c x s l e hl he]
    rcases e with ⟨a, pv0, nx0⟩
    rcases h with h | h
    · simp at h
      subst h
      rfl
    · simp at h
      subst h
      cases pv0 <;> rfl

theorem Get_completes_only_with_both_links_witness :
    (Get contract rlpCodec addrB storeABC = (.ret (true, addrA, addrC, none), storeABC) ∧
      ∃ e, (getEntry contract rlpCodec addrB storeABC).1 = .ok e ∧
        e.Prev = some addrA ∧ e.Next = some addrC) ∧
    ((getEntry contract rlpCodec addrB storeAB).1 = .ok ⟨addrB, some addrA, none⟩ ∧
      Get contract rlpCodec addrB storeAB = (.fault, storeAB)) :=
  ⟨⟨rfl, ((Get_completes_only_with_both_links contract rlpCodec addrB storeABC).1
      true addrA addrC storeABC rfl).2⟩,
   ⟨by decide, (Get_completes_only_with_both_links contract rlpCodec addrB storeAB).2
      true ⟨addrB, some addrA, none⟩ (by decide) (by decide) (Or.inr rfl)⟩⟩

/-! ## Independence of entry slots -/

/-- C18: the entry key derivation is injective, and for every store, every
entry e and every identity Y other than e.NodeAddr, getEntry(Y) returns the
same result after setEntry(e) as before it. -/
theorem setEntry_leaves_other_entries (p : NetPermission) (c : Codec) (s : State)
    (e : Permissionentry) (y : Address) (hy : y ≠ e.NodeAddr) :
    (∀ a b : Address, BytesToBytes32 a.bytes = BytesToBytes32 b.bytes → a = b) ∧
    (getEntry p c y (setEntry p c e s).2).1 = (getEntry p c y s).1 := by
  refine ⟨entryKey_injective, ?_⟩
  have hk : BytesToBytes32 y.bytes ≠ BytesToBytes32 e.NodeAddr.bytes :=
    fun h => hy (entryKey_injective _ _ h)
  rw [setEntry_def]
  unfold EncodeStorage
  cases encodeEntrySlot c e with
  | error err => rfl
  | ok raw =>
    simp only
    rw [getEntry_def, getEntry_def]
    unfold DecodeStorage
    rw [storage_setRaw_other _ _ _ _ _ hk]
    cases s.storage p.addr (BytesToBytes32 y.bytes) <;> rfl

theorem setEntry_leaves_other_entries_witness :
    addrA ≠ addrB ∧
    (getEntry contract rlpCodec addrA
      (setEntry contract rlpCodec ⟨addrB, some addrA, none⟩ storeA).2).1
      = (getEntry contract rlpCodec addrA storeA).1 :=
  ⟨by decide, (setEntry_leaves_other_entries contract rlpCodec storeA
    ⟨addrB, some addrA, none⟩ addrA (by decide)).2⟩

theorem headKey_ne_tailKey : headKey ≠ tailKey := by decide

theorem not_linked_of_unlisted (p : NetPermission) (c : Codec) (x : Address) (s : State)
    (e : Permissionentry) (hl : (inList p c x s).1 = .ok false)
    (he : (getEntry p c x s).1 = .ok e) : e.Prev = none ∧ e.Next = none := by
  cases hk : e.IsLinked with
  | true =>
    rw [inList_of_linked_or_head p c x s e he (Or.inl hk)] at hl
    cases hl
  | false =>
    rcases e with ⟨a, pv, nx⟩
    cases pv <;> cases nx <;> simp [Permissionentry.IsLinked] at hk ⊢

theorem Revoke_of_unlisted (p : NetPermission) (c : Codec) (x : Address) (s : State)
    (e : Permissionentry) (raw : List Byte) (hl : (inList p c x s).1 = .ok false)
    (he : (getEntry p c x s).1 = .ok e) (hw : encodeEntrySlot c e = .ok raw) :
    Revoke p c x s = (.ok true,
      (((s.setRaw p.addr headKey []).setRaw p.addr tailKey []).setRaw p.addr
        (BytesToBytes32 e.NodeAddr.bytes) raw)) := by
  obtain ⟨hp, hn⟩ := not_linked_of_unlisted p c x s e hl he
  rcases e with ⟨a, pv, nx⟩
  simp only at hp hn
  subst hp hn
  unfold Revoke
  rw [inList_eq, hl]
  simp only
  rw [getEntry_eq, he]
  simp only
  have h1 : Revoke.unlinkPrev p c ⟨a, none, none⟩ s = (none, s.setRaw p.addr headKey []) := rfl
  rw [h1]
  simp only
  have h2 : Revoke.unlinkNext p c ⟨a, none, none⟩ (s.setRaw p.addr headKey [])
      = (none, (s.setRaw p.addr headKey []).setRaw p.addr tailKey []) := rfl
  rw [h2]
  simp only
  rw [setEntry_def, hw]
  rfl

/-- C16 as stated fails: in the store of the chain A, Z (Z the zero address)
the identity C is not listed and Revoke(C) returns true, but the entry of Z,
an identity other than C, had Prev = A before and has no links afterwards:
the zero entry read from the empty slot of C is written back under the key of
the zero address, which clears the slot of Z. -/
theorem Revoke_unlisted_drops_links_of_zero_identity :
    (inList contract rlpCodec addrC storeAZ).1 = .ok false ∧
    (Revoke contract rlpCodec addrC storeAZ).1 = .ok true ∧
    Address.zero ≠ addrC ∧
    (getEntry contract rlpCodec Address.zero storeAZ).1
      = .ok ⟨Address.zero, some addrA, none⟩ ∧
    (getEntry contract rlpCodec Address.zero (Revoke contract rlpCodec addrC storeAZ).2).1
      = .ok ⟨Address.zero, none, none⟩ := by
  decide

/-- C16 amended: for every store and every X for which the membership test
answers false, e being the entry read from the slot of X and its write
succeeding, Revoke(X) returns true, afterwards the head and the tail pointer
both read absent, and the entry of every identity other than e.NodeAddr reads
as before. -/
theorem Revoke_unlisted_clears_head_and_tail (p : NetPermission) (c : Codec) (x : Address)
    (s : State) (e : Permissionentry) (raw : List Byte)
    (hl : (inList p c x s).1 = .ok false) (he : (getEntry p c x s).1 = .ok e)
    (hw : encodeEntrySlot c e = .ok raw) :
    (Revoke p c x s).1 = .ok true ∧
    (getNodeAddrPtr p c headKey (Revoke p c x s).2).1 = .ok none ∧
    (getNodeAddrPtr p c tailKey (Revoke p c x s).2).1 = .ok none ∧
    ∀ y : Address, y ≠ e.NodeAddr →
      (getEntry p c y (Revoke p c x s).2).1 = (getEntry p c y s).1 := by
  rw [Revoke_of_unlisted p c x s e raw hl he hw]
  refine ⟨rfl, ?_, ?_, ?_⟩
  · rw [getNodeAddrPtr_def, DecodeStorage_of_ok _ _ _ _ []]
    · rfl
    · rw [storage_setRaw_other _ _ _ _ _ (entryKey_ne_headKey _).symm,
        storage_setRaw_other _ _ _ _ _ headKey_ne_tailKey, storage_setRaw_same]
  · rw [getNodeAddrPtr_def, DecodeStorage_of_ok _ _ _ _ []]
    · rfl
    · rw [storage_setRaw_other _ _ _ _ _ (entryKey_ne_tailKey _).symm, storage_setRaw_same]
  · intro y hy
    have hk : BytesToBytes32 y.bytes ≠ BytesToBytes32 e.NodeAddr.bytes :=
      fun h => hy (entryKey_injective _ _ h)
    rw [getEntry_def, getEntry_def]
    unfold DecodeStorage
    simp only
    rw [storage_setRaw_other _ _ _ _ _ hk,
      storage_setRaw_other _ _ _ _ _ (entryKey_ne_tailKey y),
      storage_setRaw_other _ _ _ _ _ (entryKey_ne_headKey y)]
    cases s.storage p.addr (BytesToBytes32 y.bytes) <;> rfl

theorem Revoke_unlisted_clears_head_and_tail_witness :
    (inList contract rlpCodec addrB storeAtombB).1 = .ok false ∧
    (getEntry contract rlpCodec addrB storeAtombB).1 = .ok ⟨addrB, none, none⟩ ∧
    (Revoke contract rlpCodec addrB storeAtombB).1 = .ok true ∧
    (getNodeAddrPtr contract rlpCodec headKey
      (Revoke contract rlpCodec addrB storeAtombB).2).1 = .ok none ∧
    (getNodeAddrPtr contract rlpCodec tailKey
      (Revoke contract rlpCodec addrB storeAtombB).2).1 = .ok none ∧
    ∀ y : Address, y ≠ addrB →
      (getEntry contract rlpCodec y (Revoke contract rlpCodec addrB storeAtombB).2).1
        = (getEntry contract rlpCodec y storeAtombB).1 :=
  ⟨by decide, by decide,
   Revoke_unlisted_clears_head_and_tail contract rlpCodec addrB storeAtombB
     ⟨addrB, none, none⟩ (rlpEntry ⟨addrB, none, none⟩) (by decide) (by decide) (by decide)⟩

/-! ## The concrete codec round-trips -/

theorem takeAddr_rlpAddr (a : Address) (rest : List Byte) :
    takeAddr (rlpAddr a ++ rest) = some (a, rest) := by
  rcases a with ⟨bs, hb⟩
  simp [takeAddr, rlpAddr, List.take_left' hb, List.drop_left' hb, hb]

theorem takeOptAddr_rlpOptAddr (v : Option Address) (rest : List Byte) :
    takeOptAddr (rlpOptAddr v ++ rest) = some (v, rest) := by
  cases v with
  | none => simp [takeOptAddr, rlpOptAddr]
  | some a =>
    have h := takeAddr_rlpAddr a rest
    simp only [rlpOptAddr]
    simp only [rlpAddr, List.cons_append] at h ⊢
    simp only [takeOptAddr]
    rw [h]
    simp

theorem rlpEntry_ne_nil (e : Permissionentry) : rlpEntry e ≠ [] := by
  unfold rlpEntry rlpListHeader
  split <;> simp

theorem rlpDecodeEntry_rlpEntry (e : Permissionentry) : rlpDecodeEntry (rlpEntry e) = .ok e := by
  rcases e with ⟨a, pv, nx⟩
  have hs : stripListHeader (rlpEntry ⟨a, pv, nx⟩)
      = some (rlpAddr a ++ (rlpOptAddr pv ++ (rlpOptAddr nx ++ []))) := by
    have h215 : ((Fin.ofNat 215 : Fin 256) : Nat) = 215 := rfl
    have h235 : ((Fin.ofNat 235 : Fin 256) : Nat) = 235 := rfl
    have h63 : ((Fin.ofNat 63 : Fin 256) : Nat) = 63 := rfl
    have h248 : ((248 : Fin 256) : Nat) = 248 := rfl
    rcases pv with _ | ⟨q⟩ <;> rcases nx with _ | ⟨r⟩ <;>
      simp [rlpEntry, rlpListHeader, rlpAddr, rlpOptAddr, stripListHeader, a.len, Address.len,
        h215, h235, h63, h248]
  unfold rlpDecodeEntry
  rw [hs]
  simp only [takeAddr_rlpAddr, takeOptAddr_rlpOptAddr]
  simp

theorem rlpDecodeAddrPtr_rlpAddr (a : Address) : rlpDecodeAddrPtr (rlpAddr a) = .ok (some a) := by
  have h := takeAddr_rlpAddr a []
  rw [List.append_nil] at h
  unfold rlpDecodeAddrPtr
  rw [h]

theorem rlpCodec_entry_roundtrip (e : Permissionentry) (he : e.IsEmpty = false) :
    encodeEntrySlot rlpCodec e = .ok (rlpEntry e) ∧
    decodeEntrySlot rlpCodec (rlpEntry e) = .ok e := by
  constructor
  · unfold encodeEntrySlot
    rw [he]
    rfl
  · unfold decodeEntrySlot
    have hne : ¬ (rlpEntry e).length = 0 := fun h => rlpEntry_ne_nil e (List.length_eq_zero.mp h)
    rw [if_neg hne]
    exact rlpDecodeEntry_rlpEntry e

theorem rlpCodec_addr_roundtrip (a : Address) :
    encodeAddrSlot rlpCodec (some a) = .ok (rlpAddr a) ∧
    decodeAddrSlot rlpCodec (rlpAddr a) = .ok (some a) := by
  refine ⟨rfl, ?_⟩
  unfold decodeAddrSlot
  have hne : ¬ (rlpAddr a).length = 0 := by simp [rlpAddr]
  rw [if_neg hne]
  exact rlpDecodeAddrPtr_rlpAddr a

end netpermission
